import Mathlib

/-!
Shallow embedding of the GPON prometheus collector
(src/prometheus_collector/collector.py) together with proofs about its
Response Parser, Prompt Scanner and Session Driver.

Response texts and buffers are modelled as lists of characters.  The
regular-expression searches of the source are embedded as executable
first-match scanners, the prompt-wait loop as a fuel-indexed recursion
over an abstract stream of read events, and the per-device telnet driver
as a function over an abstract world describing what the device and the
transport do at each interaction point.
-/

namespace GponCollector

/-- Character list of a string literal. -/
def str (s : String) : List Char := s.data

/-- Model of the python method lower applied to a response text. -/
def pyLower (s : List Char) : List Char := s.map Char.toLower

/-- Boolean test that a list begins with the given pattern. -/
def startsWithSub (s pat : List Char) : Bool := pat == s.take pat.length

/-- Boolean substring containment, modelling the python operator in. -/
def containsSub (pat : List Char) : List Char → Bool
  | [] => startsWithSub [] pat
  | c :: cs => startsWithSub (c :: cs) pat || containsSub pat cs

/-- Case-insensitive containment, modelling pat in s.lower() with a
lowercase literal pat (collector.py lines 145 and 153). -/
def containsCI (s pat : List Char) : Bool := containsSub pat (pyLower s)

/-- Boolean test that a list ends with the given pattern, modelling the
python method endswith. -/
def endsWith (s pat : List Char) : Bool := s.drop (s.length - pat.length) == pat

/-! ## ONU state table (collector.py lines 70-78)

The fifth key of the source dictionary is the two characters capital
letter O followed by the digit five, not digit zero followed by five;
this is transcribed verbatim. -/

/-- The ONU state code table of collector.py lines 70-78. -/
def onu_state_mapping : List (List Char × Nat) :=
  [(str "01", 1), (str "02", 2), (str "03", 3), (str "04", 4),
   (str "O5", 5), (str "06", 6), (str "07", 7)]

/-- Dictionary lookup with default 0, modelling
onu_state_mapping.get(code, 0) at collector.py line 191. -/
def onuStateLookup (code : List Char) : Nat :=
  match onu_state_mapping.find? (fun p => p.1 == code) with
  | some p => p.2
  | none => 0

/-! ## Regex search embedding (collector.py lines 184, 189, 194) -/

/-- Split a list into its maximal digit prefix and the remainder,
the greedy matcher for one unit of the regex digit class. -/
def takeDigits : List Char → List Char × List Char
  | [] => ([], [])
  | c :: cs =>
    if c.isDigit then
      (c :: (takeDigits cs).1, (takeDigits cs).2)
    else ([], c :: cs)

/-- Match the unsigned pattern digits dot digits at the head of the
list, returning the greedy match (regex at line 194). -/
def matchUnsignedAt (s : List Char) : Option (List Char) :=
  if (takeDigits s).1 = [] then none
  else
    match (takeDigits s).2 with
    | [] => none
    | c :: r2 =>
      if c = '.' then
        if (takeDigits r2).1 = [] then none
        else some ((takeDigits s).1 ++ '.' :: (takeDigits r2).1)
      else none

/-- Match the signed pattern, an optional minus sign before the unsigned
pattern, at the head of the list (regex at line 184). -/
def matchSignedAt : List Char → Option (List Char)
  | [] => matchUnsignedAt []
  | c :: cs =>
    if c = '-' then
      match matchUnsignedAt cs with
      | some m => some ('-' :: m)
      | none => none
    else matchUnsignedAt (c :: cs)

/-- Leftmost-match driver modelling re.search: try the head matcher at
every position from the left and return the first success. -/
def reSearchFirst (f : List Char → Option (List Char)) : List Char → Option (List Char)
  | [] => f []
  | c :: cs =>
    match f (c :: cs) with
    | some m => some m
    | none => reSearchFirst f cs

/-- The literal marker of the ONU state regex at line 189. -/
def onuMarker : List Char := str "ONU state: "

/-- Head matcher for the ONU state regex: if the marker starts here, the
captured group is everything up to the next newline or the end. -/
def matchOnuAt (s : List Char) : Option (List Char) :=
  if startsWithSub s onuMarker then
    some ((s.drop onuMarker.length).takeWhile (fun c => !(c == '\n')))
  else none

/-- Model of re.search for the ONU state pattern at line 189, returning
the captured group of the leftmost match. -/
def findOnuState : List Char → Option (List Char) := reSearchFirst matchOnuAt

/-- A value handed to a gauge: either the matched numeric literal
(forwarded unchanged to float conversion) or a state ordinal. -/
inductive ObsValue where
  | num (literal : List Char)
  | state (ordinal : Nat)
deriving DecidableEq

/-- Command literal of collector.py line 170. -/
def cmdBiasCurrent : String := "diag pon get transceiver bias-current"

/-- Command literal of collector.py line 171. -/
def cmdRxPower : String := "diag pon get transceiver rx-power"

/-- Command literal of collector.py line 172. -/
def cmdTemperature : String := "diag pon get transceiver temperature"

/-- Command literal of collector.py line 173. -/
def cmdTxPower : String := "diag pon get transceiver tx-power"

/-- Command literal of collector.py line 174. -/
def cmdVoltage : String := "diag pon get transceiver voltage"

/-- Command literal of collector.py line 175. -/
def cmdOnuState : String := "diag gpon get onu-state"

/-- The Response Parser dispatch of collector.py lines 183-197: signed
first match for the two power commands, marker lookup for the ONU state
command, unsigned first match otherwise. -/
def parseCommand (command : String) (result : List Char) : Option ObsValue :=
  if command == cmdRxPower || command == cmdTxPower then
    (reSearchFirst matchSignedAt result).map ObsValue.num
  else if startsWithSub (str command) (str cmdOnuState) then
    (findOnuState result).map (fun code => ObsValue.state (onuStateLookup code))
  else
    (reSearchFirst matchUnsignedAt result).map ObsValue.num

/-! ## Prompt Scanner embedding (collector.py lines 81-111) -/

/-- One read attempt on the stream: a chunk of text (empty meaning the
stream reported end of file), a sub-timeout with no bytes, or the read
raising an exception other than the sub-timeout. -/
inductive ReadEvent where
  | chunk (text : List Char)
  | timeout
  | err
deriving DecidableEq

/-- Prompt detection of collector.py lines 100-101: the buffer ends in
one of the three prompt characters, optionally followed by one space. -/
def isPromptEnd (buffer : List Char) : Bool :=
  endsWith buffer (str "$ ") || endsWith buffer (str "# ") || endsWith buffer (str "> ") ||
  endsWith buffer (str "$") || endsWith buffer (str "#") || endsWith buffer (str ">")

/-- The six recognized prompt terminators. -/
def promptTerminators : List (List Char) :=
  [str "$ ", str "# ", str "> ", str "$", str "#", str ">"]

/-- The wait loop of collector.py lines 87-107.  The fuel counts the
remaining whole-loop time budget, one unit per read attempt; an error
event propagates out of the loop body to the outer handler. -/
def waitAux (stream : Nat → ReadEvent) : Nat → Nat → List Char → Except Unit (List Char)
  | 0, _, buffer => .ok buffer
  | fuel + 1, i, buffer =>
    match stream i with
    | .timeout => waitAux stream fuel (i + 1) buffer
    | .err => .error ()
    | .chunk text =>
      if text = [] then .ok buffer
      else if isPromptEnd (buffer ++ text) then .ok (buffer ++ text)
      else waitAux stream fuel (i + 1) (buffer ++ text)

/-- The full scanner wait_for_prompt of collector.py lines 81-111: run
the loop and on any escaped exception return the empty string. -/
def wait_for_prompt (stream : Nat → ReadEvent) (timeout : Nat) : List Char :=
  match waitAux stream timeout 0 [] with
  | .ok buffer => buffer
  | .error _ => []

/-- Build a stream from a finite list of events; past the end the stream
keeps reporting sub-timeouts. -/
def streamOf (events : List ReadEvent) : Nat → ReadEvent :=
  fun i => events.getD i ReadEvent.timeout

/-! ## Session Driver embedding (collector.py lines 114-215) -/

/-- Identifier of each prometheus gauge of collector.py lines 63-68. -/
inductive GaugeId where
  | biasCurrent
  | rxPower
  | temperature
  | txPower
  | voltage
  | onuState
deriving DecidableEq

/-- The fixed command table of collector.py lines 169-176, in source
order. -/
def commands : List (String × GaugeId) :=
  [(cmdBiasCurrent, .biasCurrent), (cmdRxPower, .rxPower), (cmdTemperature, .temperature),
   (cmdTxPower, .txPower), (cmdVoltage, .voltage), (cmdOnuState, .onuState)]

/-- Externally visible action of the command loop: writing a command to
the transport, or publishing a value to a gauge. -/
inductive Ev where
  | send (command : String)
  | publish (gauge : GaugeId) (value : ObsValue)
deriving DecidableEq

/-- Abstract world of one poll attempt: the text the scanner captures at
each phase, the per-command responses, and whether each fallible
transport operation raises. -/
structure TelnetWorld where
  connectFails : Bool
  initialResponse : List Char
  sendUserFails : Bool
  passwordResponse : List Char
  sendPassFails : Bool
  shellResponse : List Char
  cmdSendFails : String → Bool
  responses : String → List Char
  closeFails : Bool
  waitClosedFails : Bool

/-- Outcome of one poll attempt: the actions performed, whether the
connection was opened, whether close was called on it, and whether an
exception escaped the driver body to its outer handler. -/
structure DriverResult where
  events : List Ev
  connOpened : Bool
  closeCalled : Bool
  exn : Bool

/-- Model of execute_telnet_command (collector.py lines 114-126): a
write or drain failure is caught locally and yields the empty response,
otherwise the captured response text is returned. -/
def executeCommand (w : TelnetWorld) (command : String) : List Char :=
  if w.cmdSendFails command then [] else w.responses command

/-- The gauge updates of one command (collector.py lines 183-197): one
publish event on a successful parse, none otherwise. -/
def obsEvents (w : TelnetWorld) (cg : String × GaugeId) : List Ev :=
  match parseCommand cg.1 (executeCommand w cg.1) with
  | some v => [Ev.publish cg.2 v]
  | none => []

/-- One iteration of the command loop (collector.py lines 178-197):
send the command, then publish its parsed observation if any. -/
def runCommand (w : TelnetWorld) (cg : String × GaugeId) : List Ev :=
  Ev.send cg.1 :: obsEvents w cg

/-- The whole command loop over the fixed table in source order. -/
def runCommands (w : TelnetWorld) : List Ev :=
  (commands.map (runCommand w)).flatten

/-- Login prompt marker of collector.py line 145. -/
def loginMarker : List Char := str "login:"

/-- Username prompt marker of collector.py line 145. -/
def usernameMarker : List Char := str "username:"

/-- Password prompt marker of collector.py line 153. -/
def passwordMarker : List Char := str "password:"

/-- The per-device driver fetch_and_update_metrics_via_telnet
(collector.py lines 129-207): connect, authenticate, run the command
loop, close; the trailing except clauses catch every exception but do
not close the connection. -/
def fetch_and_update_metrics_via_telnet (w : TelnetWorld) : DriverResult :=
  if w.connectFails then
    { events := [], connOpened := false, closeCalled := false, exn := true }
  else if containsCI w.initialResponse loginMarker || containsCI w.initialResponse usernameMarker then
    if w.sendUserFails then
      { events := [], connOpened := true, closeCalled := false, exn := true }
    else if containsCI w.passwordResponse passwordMarker then
      if w.sendPassFails then
        { events := [], connOpened := true, closeCalled := false, exn := true }
      else
        { events := runCommands w, connOpened := true, closeCalled := true,
          exn := w.closeFails || w.waitClosedFails }
    else
      { events := [], connOpened := true, closeCalled := true, exn := w.closeFails }
  else
    { events := [], connOpened := true, closeCalled := true, exn := w.closeFails }

/-- The synchronous wrapper (collector.py lines 210-215): whatever the
driver did, the wrapper catches any escaped exception and returns
normally with the events already performed. -/
def fetch_and_update_metrics_via_telnet_sync (w : TelnetWorld) : DriverResult :=
  { events := (fetch_and_update_metrics_via_telnet w).events,
    connOpened := (fetch_and_update_metrics_via_telnet w).connOpened,
    closeCalled := (fetch_and_update_metrics_via_telnet w).closeCalled,
    exn := false }

/-- One sweep of the orchestrator loop (collector.py lines 223-228)
over a list of device worlds. -/
def pollAll (ws : List TelnetWorld) : List (List Ev) :=
  ws.map (fun w => (fetch_and_update_metrics_via_telnet_sync w).events)

/-- Project the command of a send event. -/
def sendOf : Ev → Option String
  | .send c => some c
  | .publish _ _ => none

/-- Position of a command in the fixed table. -/
def cmdIndex (command : String) : Nat := (commands.map Prod.fst).indexOf command

/-- Position of a gauge in the fixed table. -/
def gaugeIndex (gauge : GaugeId) : Nat := (commands.map Prod.snd).indexOf gauge

/-- Ordering key of an event: sends of the i-th command at 2i, publishes
of its gauge at 2i+1, so monotone keys mean table order with each
observation published before the next send. -/
def evKey : Ev → Nat
  | .send c => 2 * cmdIndex c
  | .publish g _ => 2 * gaugeIndex g + 1

/-- Concrete world in which the device presents a login prompt but then
answers the username with a bare shell prompt instead of a password
prompt (end-to-end scenario 2 of the spec). -/
def wLoginNoPassword : TelnetWorld :=
  { connectFails := false, initialResponse := str "login: ", sendUserFails := false,
    passwordResponse := str "> ", sendPassFails := false, shellResponse := [],
    cmdSendFails := fun _ => false, responses := fun _ => [],
    closeFails := false, waitClosedFails := false }

/-- Concrete world in which writing the username to the transport
raises, so the outer exception handler is reached with the connection
open. -/
def wSendUserRaises : TelnetWorld :=
  { connectFails := false, initialResponse := str "login: ", sendUserFails := true,
    passwordResponse := [], sendPassFails := false, shellResponse := [],
    cmdSendFails := fun _ => false, responses := fun _ => [],
    closeFails := false, waitClosedFails := false }

/-- Concrete world in which opening the connection times out. -/
def wConnectTimeout : TelnetWorld :=
  { connectFails := true, initialResponse := [], sendUserFails := false,
    passwordResponse := [], sendPassFails := false, shellResponse := [],
    cmdSendFails := fun _ => false, responses := fun _ => [],
    closeFails := false, waitClosedFails := false }

/-! ## Declarative pattern predicates used to state first-match
correctness of the regex embedding -/

/-- Every character of the list is a decimal digit. -/
def AllDigits (l : List Char) : Prop := ∀ c ∈ l, c.isDigit = true

/-- The list matches the unsigned pattern digits dot digits. -/
def IsUnsignedNum (t : List Char) : Prop :=
  ∃ d1 d2, d1 ≠ [] ∧ d2 ≠ [] ∧ AllDigits d1 ∧ AllDigits d2 ∧ t = d1 ++ '.' :: d2

/-- The list matches the signed pattern, an optional minus sign before
the unsigned pattern. -/
def IsSignedNum (t : List Char) : Prop :=
  IsUnsignedNum t ∨ ∃ u, IsUnsignedNum u ∧ t = '-' :: u

/-- The pattern of a numeric command, selected by its signedness. -/
def IsNum (signed : Bool) (t : List Char) : Prop :=
  if signed then IsSignedNum t else IsUnsignedNum t

/-- The head matcher of a numeric command, selected by signedness. -/
def matchNumAt (signed : Bool) : List Char → Option (List Char) :=
  if signed then matchSignedAt else matchUnsignedAt

/-- The list t occurs in s starting at position i. -/
def OccursAt (t s : List Char) (i : Nat) : Prop :=
  ∃ pre rest, pre.length = i ∧ s = pre ++ (t ++ rest)

/-! ## Helper lemmas about the digit scanner -/

theorem takeDigits_append (s : List Char) : (takeDigits s).1 ++ (takeDigits s).2 = s := by
  induction s with
  | nil => simp [takeDigits]
  | cons c cs ih =>
    by_cases h : c.isDigit
    · simp [takeDigits, h, ih]
    · simp [takeDigits, h]

theorem takeDigits_digits (s : List Char) : AllDigits (takeDigits s).1 := by
  induction s with
  | nil => intro c hc; simp [takeDigits] at hc
  | cons c cs ih =>
    intro d hd
    by_cases h : c.isDigit
    · simp only [takeDigits, h, if_true] at hd
      rcases List.mem_cons.mp hd with hd | hd
      · exact hd ▸ h
      · exact ih d hd
    · simp [takeDigits, h] at hd

theorem takeDigits_of_append (d r : List Char) (hd : AllDigits d)
    (hr : ∀ c rs, r = c :: rs → c.isDigit = false) :
    takeDigits (d ++ r) = (d, r) := by
  induction d with
  | nil =>
    cases r with
    | nil => simp [takeDigits]
    | cons c rs =>
      have := hr c rs rfl
      simp [takeDigits, this]
  | cons c d ih =>
    have hc : c.isDigit = true := hd c (by simp)
    have hd2 : AllDigits d := fun x hx => hd x (by simp [hx])
    simp [takeDigits, hc, ih hd2]

theorem takeDigits_fst_ne_nil (d post : List Char) (h1 : d ≠ []) (h2 : AllDigits d) :
    (takeDigits (d ++ post)).1 ≠ [] := by
  cases d with
  | nil => exact absurd rfl h1
  | cons e d2 =>
    have he : e.isDigit = true := h2 e (by simp)
    simp [takeDigits, he]

/-! ## Soundness and completeness of the head matchers -/

theorem matchUnsignedAt_sound (s m : List Char) (h : matchUnsignedAt s = some m) :
    IsUnsignedNum m ∧ ∃ post, s = m ++ post := by
  unfold matchUnsignedAt at h
  split at h
  · exact absurd h (by simp)
  · rename_i h1
    split at h
    · exact absurd h (by simp)
    · rename_i c r2 hr
      split at h
      · rename_i hc
        split at h
        · exact absurd h (by simp)
        · rename_i h2
          have hm := Option.some.inj h
          subst hm
          refine ⟨⟨(takeDigits s).1, (takeDigits r2).1, h1, h2,
            takeDigits_digits s, takeDigits_digits r2, rfl⟩, ⟨(takeDigits r2).2, ?_⟩⟩
          calc s = (takeDigits s).1 ++ (takeDigits s).2 := (takeDigits_append s).symm
            _ = (takeDigits s).1 ++ ('.' :: r2) := by rw [hr, hc]
            _ = (takeDigits s).1 ++ ('.' :: ((takeDigits r2).1 ++ (takeDigits r2).2)) := by
                  rw [takeDigits_append r2]
            _ = ((takeDigits s).1 ++ '.' :: (takeDigits r2).1) ++ (takeDigits r2).2 := by
                  simp [List.append_assoc]
      · exact absurd h (by simp)

theorem matchUnsignedAt_complete (t post : List Char) (h : IsUnsignedNum t) :
    matchUnsignedAt (t ++ post) ≠ none := by
  obtain ⟨d1, d2, h1, h2, hd1, hd2, ht⟩ := h
  subst ht
  have e0 : (d1 ++ '.' :: d2) ++ post = d1 ++ ('.' :: (d2 ++ post)) := by simp
  have e1 : takeDigits ((d1 ++ '.' :: d2) ++ post) = (d1, '.' :: (d2 ++ post)) := by
    rw [e0]
    refine takeDigits_of_append d1 ('.' :: (d2 ++ post)) hd1 ?_
    intro c rs hcrs
    have hc := (List.cons.inj hcrs).1
    rw [← hc]; decide
  have e2 := takeDigits_fst_ne_nil d2 post h2 hd2
  unfold matchUnsignedAt
  rw [e1]
  simp [h1, e2]

theorem matchSignedAt_sound (s m : List Char) (h : matchSignedAt s = some m) :
    IsSignedNum m ∧ ∃ post, s = m ++ post := by
  cases s with
  | nil =>
    have h2 : matchUnsignedAt [] = some m := by simpa [matchSignedAt] using h
    have := matchUnsignedAt_sound [] m h2
    exact ⟨Or.inl this.1, this.2⟩
  | cons c cs =>
    by_cases hc : c = '-'
    · subst hc
      simp only [matchSignedAt, if_pos rfl] at h
      cases hu : matchUnsignedAt cs with
      | none => rw [hu] at h; exact absurd h (by simp)
      | some m2 =>
        rw [hu] at h
        have hm : '-' :: m2 = m := Option.some.inj h
        obtain ⟨hn, ⟨post, hp⟩⟩ := matchUnsignedAt_sound cs m2 hu
        subst hm
        exact ⟨Or.inr ⟨m2, hn, rfl⟩, ⟨post, by simp [hp]⟩⟩
    · simp only [matchSignedAt, if_neg hc] at h
      have := matchUnsignedAt_sound (c :: cs) m h
      exact ⟨Or.inl this.1, this.2⟩

theorem matchSignedAt_complete (t post : List Char) (h : IsSignedNum t) :
    matchSignedAt (t ++ post) ≠ none := by
  rcases h with h | ⟨u, hu, ht⟩
  · obtain ⟨d1, d2, h1, h2, hd1, hd2, ht⟩ := h
    subst ht
    cases d1 with
    | nil => exact absurd rfl h1
    | cons e d12 =>
      have he : e.isDigit = true := hd1 e (by simp)
      have hne : ¬ e = '-' := by
        intro hcontra
        rw [hcontra] at he
        exact absurd he (by decide)
      have e2 : ((e :: d12) ++ '.' :: d2) ++ post = e :: ((d12 ++ '.' :: d2) ++ post) := by simp
      rw [e2]
      simp only [matchSignedAt, if_neg hne]
      have hcompl := matchUnsignedAt_complete ((e :: d12) ++ '.' :: d2) post
        ⟨e :: d12, d2, (by simp), h2, hd1, hd2, rfl⟩
      have e3 : ((e :: d12) ++ '.' :: d2) ++ post = e :: ((d12 ++ '.' :: d2) ++ post) := by simp
      rw [e3] at hcompl
      exact hcompl
  · subst ht
    have e4 : ('-' :: u) ++ post = '-' :: (u ++ post) := by simp
    rw [e4]
    simp only [matchSignedAt, if_pos rfl]
    cases hu2 : matchUnsignedAt (u ++ post) with
    | none => exact absurd hu2 (matchUnsignedAt_complete u post hu)
    | some m2 => simp

/-! ## Generic first-match lemmas for the search driver -/

theorem reSearchFirst_eq_none_iff (f : List Char → Option (List Char)) (M : List Char → Prop)
    (hs : ∀ s m, f s = some m → M s) (hc : ∀ s, M s → f s ≠ none) (s : List Char) :
    reSearchFirst f s = none ↔ ∀ pre post : List Char, s = pre ++ post → ¬ M post := by
  induction s with
  | nil =>
    constructor
    · intro h pre post hpp hM
      have hpost : [] = post := by
        cases pre with
        | nil => simpa using hpp
        | cons a l => simp at hpp
      have h0 : reSearchFirst f [] = f [] := by simp [reSearchFirst]
      exact hc post hM (by rw [← hpost]; rw [h0] at h; exact h)
    · intro h
      have h0 : reSearchFirst f [] = f [] := by simp [reSearchFirst]
      rw [h0]
      cases hf : f [] with
      | none => rfl
      | some m => exact absurd (hs [] m hf) (h [] [] rfl)
  | cons c cs ih =>
    cases hf : f (c :: cs) with
    | some m =>
      constructor
      · intro h
        simp only [reSearchFirst, hf] at h
        exact Option.noConfusion h
      · intro h
        exact absurd (hs _ m hf) (h [] (c :: cs) rfl)
    | none =>
      have hstep : reSearchFirst f (c :: cs) = reSearchFirst f cs := by
        simp only [reSearchFirst, hf]
      rw [hstep, ih]
      constructor
      · intro h pre post hpp hM
        cases pre with
        | nil =>
          have hpost : c :: cs = post := by simpa using hpp
          exact absurd (hpost ▸ hf) (hc post hM)
        | cons a pre2 =>
          have h2 : cs = pre2 ++ post := by
            rw [List.cons_append] at hpp
            exact (List.cons.inj hpp).2
          exact h pre2 post h2 hM
      · intro h pre post hpp hM
        exact h (c :: pre) post (by simp [hpp]) hM

theorem reSearchFirst_eq_some (f : List Char → Option (List Char)) (M : List Char → Prop)
    (hs : ∀ s m, f s = some m → M s) (hc : ∀ s, M s → f s ≠ none) :
    ∀ s m, reSearchFirst f s = some m →
      ∃ pre post, s = pre ++ post ∧ f post = some m ∧
        ∀ pre2 post2 : List Char, s = pre2 ++ post2 → M post2 → pre.length ≤ pre2.length := by
  intro s
  induction s with
  | nil =>
    intro m h
    have h0 : f [] = some m := by
      have he : reSearchFirst f [] = f [] := by simp [reSearchFirst]
      rw [← he]; exact h
    refine ⟨[], [], rfl, h0, ?_⟩
    intro pre2 post2 _ _
    simp
  | cons c cs ih =>
    intro m h
    cases hf : f (c :: cs) with
    | some m2 =>
      have hm : m2 = m := by
        simp only [reSearchFirst, hf] at h
        exact Option.some.inj h
      subst hm
      refine ⟨[], c :: cs, rfl, hf, ?_⟩
      intro pre2 post2 _ _
      simp
    | none =>
      have hstep : reSearchFirst f (c :: cs) = reSearchFirst f cs := by
        simp only [reSearchFirst, hf]
      rw [hstep] at h
      obtain ⟨pre, post, hsplit, hfp, hmin⟩ := ih m h
      refine ⟨c :: pre, post, by simp [hsplit], hfp, ?_⟩
      intro pre2 post2 hpp hM
      cases pre2 with
      | nil =>
        have hpost : c :: cs = post2 := by simpa using hpp
        exact absurd (hpost ▸ hf) (hc post2 hM)
      | cons a pre3 =>
        have h2 : cs = pre3 ++ post2 := by
          rw [List.cons_append] at hpp
          exact (List.cons.inj hpp).2
        have := hmin pre3 post2 h2 hM
        simpa using Nat.succ_le_succ this

/-! ## Suffix characterization of the prompt test -/

theorem endsWith_iff (l t : List Char) : endsWith l t = true ↔ ∃ pre, l = pre ++ t := by
  constructor
  · intro h
    have hd : l.drop (l.length - t.length) = t := by simpa [endsWith] using h
    refine ⟨l.take (l.length - t.length), ?_⟩
    conv_lhs => rw [← List.take_append_drop (l.length - t.length) l]
    rw [hd]
  · rintro ⟨pre, rfl⟩
    have hlen : (pre ++ t).length - t.length = pre.length := by simp
    simp [endsWith, hlen]

/-! ## Prefix characterization of the marker test -/

theorem startsWithSub_iff (s pat : List Char) :
    startsWithSub s pat = true ↔ ∃ rest, s = pat ++ rest := by
  constructor
  · intro h
    have he : pat = s.take pat.length := by simpa [startsWithSub] using h
    refine ⟨s.drop pat.length, ?_⟩
    conv_lhs => rw [← List.take_append_drop pat.length s]
    rw [← he]
  · rintro ⟨rest, rfl⟩
    simp [startsWithSub]

theorem matchOnuAt_sound (s m : List Char) (h : matchOnuAt s = some m) :
    ∃ post, s = onuMarker ++ post := by
  unfold matchOnuAt at h
  split at h
  · rename_i hsw
    exact (startsWithSub_iff s onuMarker).mp hsw
  · exact absurd h (by simp)

theorem matchOnuAt_complete (s : List Char) (h : ∃ post, s = onuMarker ++ post) :
    matchOnuAt s ≠ none := by
  obtain ⟨post, rfl⟩ := h
  unfold matchOnuAt
  rw [if_pos ((startsWithSub_iff _ _).mpr ⟨post, rfl⟩)]
  simp

/-! ## Signedness-parameterized matcher lemmas -/

theorem matchNumAt_sound (signed : Bool) (s m : List Char)
    (h : matchNumAt signed s = some m) :
    IsNum signed m ∧ ∃ post, s = m ++ post := by
  cases signed with
  | false =>
    simp only [matchNumAt] at h
    simpa [IsNum] using matchUnsignedAt_sound s m (by simpa using h)
  | true =>
    simp only [matchNumAt] at h
    simpa [IsNum] using matchSignedAt_sound s m (by simpa using h)

theorem matchNumAt_complete (signed : Bool) (t post : List Char) (h : IsNum signed t) :
    matchNumAt signed (t ++ post) ≠ none := by
  cases signed with
  | false =>
    simp only [matchNumAt]
    simpa using matchUnsignedAt_complete t post (by simpa [IsNum] using h)
  | true =>
    simp only [matchNumAt]
    simpa using matchSignedAt_complete t post (by simpa [IsNum] using h)

/-! ## Command loop helpers -/

theorem obsEvents_filterMap_sendOf (w : TelnetWorld) (cg : String × GaugeId) :
    (obsEvents w cg).filterMap sendOf = [] := by
  cases h : parseCommand cg.1 (executeCommand w cg.1) with
  | none => simp [obsEvents, h]
  | some v => simp [obsEvents, h, sendOf]

theorem sends_of_table (w : TelnetWorld) :
    ∀ l : List (String × GaugeId),
      ((l.map (runCommand w)).flatten).filterMap sendOf = l.map Prod.fst := by
  intro l
  induction l with
  | nil => simp
  | cons cg tl ih =>
    simp [runCommand, sendOf, obsEvents_filterMap_sendOf, ih]

theorem runCommand_evKey_bounds (w : TelnetWorld) (cg : String × GaugeId) (lo : Nat)
    (hc : cmdIndex cg.1 = lo) (hg : gaugeIndex cg.2 = lo) :
    (∀ x ∈ (runCommand w cg).map evKey, 2 * lo ≤ x ∧ x ≤ 2 * lo + 1) ∧
    List.Pairwise (· ≤ ·) ((runCommand w cg).map evKey) := by
  cases h : parseCommand cg.1 (executeCommand w cg.1) with
  | none =>
    have e : (runCommand w cg).map evKey = [2 * lo] := by
      simp [runCommand, obsEvents, h, evKey, hc]
    rw [e]
    constructor
    · intro x hx
      simp at hx
      omega
    · simp
  | some v =>
    have e : (runCommand w cg).map evKey = [2 * lo, 2 * lo + 1] := by
      simp [runCommand, obsEvents, h, evKey, hc, hg]
    rw [e]
    constructor
    · intro x hx
      simp at hx
      rcases hx with rfl | rfl <;> omega
    · simp

theorem pairwise_prepend_segment (seg rest : List Nat) (lo : Nat)
    (hseg : ∀ x ∈ seg, 2 * lo ≤ x ∧ x ≤ 2 * lo + 1)
    (hpseg : List.Pairwise (· ≤ ·) seg)
    (hprest : List.Pairwise (· ≤ ·) rest)
    (hrest : ∀ x ∈ rest, 2 * (lo + 1) ≤ x) :
    List.Pairwise (· ≤ ·) (seg ++ rest) ∧ ∀ x ∈ seg ++ rest, 2 * lo ≤ x := by
  constructor
  · rw [List.pairwise_append]
    refine ⟨hpseg, hprest, ?_⟩
    intro a ha b hb
    have h1 := (hseg a ha).2
    have h2 := hrest b hb
    omega
  · intro x hx
    rcases List.mem_append.mp hx with hx | hx
    · exact (hseg x hx).1
    · have := hrest x hx
      omega

/-! ## Claims -/

/-- C1 (counterexample): the claim asserts that the two-character code
of digit zero and five maps to ordinal 5, but that code is absent from
the source table, whose fifth key is capital letter O followed by five;
the lookup therefore yields the fallback 0, not 5. -/
theorem C1_counterexample : onuStateLookup (str "05") = 0 ∧ ¬ onuStateLookup (str "05") = 5 := by
  decide

/-- C1 (amended): every code in the ONU state table maps to its fixed
ordinal, namely 01 to 1, 02 to 2, 03 to 3, 04 to 4, capital letter O
followed by 5 to 5, 06 to 6 and 07 to 7; every code absent from the
table, including digit-zero 05, maps to the fallback ordinal 0. -/
theorem C1_state_table_amended :
    onuStateLookup (str "01") = 1 ∧ onuStateLookup (str "02") = 2 ∧
    onuStateLookup (str "03") = 3 ∧ onuStateLookup (str "04") = 4 ∧
    onuStateLookup (str "O5") = 5 ∧ onuStateLookup (str "06") = 6 ∧
    onuStateLookup (str "07") = 7 ∧
    ∀ code : List Char, (∀ p ∈ onu_state_mapping, p.1 ≠ code) → onuStateLookup code = 0 := by
  refine ⟨by decide, by decide, by decide, by decide, by decide, by decide, by decide, ?_⟩
  intro code h
  unfold onuStateLookup
  have hnone : onu_state_mapping.find? (fun p => p.1 == code) = none := by
    rw [List.find?_eq_none]
    intro p hp
    simpa using h p hp
  rw [hnone]

/-- C1 witness: the unmapped-code branch of the amended claim applied to
the digit-zero code 05, which is absent from the table. -/
theorem C1_state_table_amended_witness : onuStateLookup (str "05") = 0 :=
  C1_state_table_amended.2.2.2.2.2.2.2 (str "05") (by decide)

/-- C2 (counterexample): the claim asserts that the ONU state command
emits exactly one observation for every response text, but a text that
does not contain the marker produces no match and zero observations. -/
theorem C2_counterexample : parseCommand cmdOnuState (str "link is up") = none := by
  decide

/-- C2 (amended): the ONU state command emits exactly one observation
for every response text containing the marker, with value the table
ordinal of the captured code or fallback 0 for an unrecognized code,
and zero observations when the marker is absent. -/
theorem C2_onu_always_emits_amended (r : List Char) :
    parseCommand cmdOnuState r =
      (findOnuState r).map (fun code => ObsValue.state (onuStateLookup code)) ∧
    ((∃ pre post : List Char, r = pre ++ (onuMarker ++ post)) → (findOnuState r).isSome = true) ∧
    (findOnuState r = none ↔ ¬ ∃ pre post : List Char, r = pre ++ (onuMarker ++ post)) := by
  have hiff : findOnuState r = none ↔ ¬ ∃ pre post : List Char, r = pre ++ (onuMarker ++ post) := by
    unfold findOnuState
    rw [reSearchFirst_eq_none_iff matchOnuAt (fun s => ∃ post, s = onuMarker ++ post)
      matchOnuAt_sound matchOnuAt_complete r]
    constructor
    · rintro h ⟨pre, post, hr⟩
      exact h pre (onuMarker ++ post) hr ⟨post, rfl⟩
    · rintro h pre post hpp ⟨q, rfl⟩
      exact h ⟨pre, q, hpp⟩
  refine ⟨?_, ?_, hiff⟩
  · unfold parseCommand
    rw [if_neg (by decide), if_pos (by decide)]
  · intro hex
    cases hfind : findOnuState r with
    | some code => rfl
    | none => exact absurd hex (hiff.mp hfind)

/-- C2 witness: a response text containing the marker yields a present
observation. -/
theorem C2_onu_always_emits_amended_witness :
    (findOnuState (str "x ONU state: O5")).isSome = true :=
  (C2_onu_always_emits_amended (str "x ONU state: O5")).2.1 ⟨str "x ", str "O5", by decide⟩

/-- C3: for every numeric command response text, the Response Parser
emits exactly the leftmost substring matching the command pattern
(signed digits dot digits for rx-power and tx-power, unsigned for
bias-current, temperature and voltage), forwarded unchanged as the
matched literal, and emits nothing when no substring matches. -/
theorem C3_numeric_first_match (signed : Bool) (r : List Char) :
    parseCommand cmdRxPower r = (reSearchFirst matchSignedAt r).map ObsValue.num ∧
    parseCommand cmdTxPower r = (reSearchFirst matchSignedAt r).map ObsValue.num ∧
    parseCommand cmdBiasCurrent r = (reSearchFirst matchUnsignedAt r).map ObsValue.num ∧
    parseCommand cmdTemperature r = (reSearchFirst matchUnsignedAt r).map ObsValue.num ∧
    parseCommand cmdVoltage r = (reSearchFirst matchUnsignedAt r).map ObsValue.num ∧
    (reSearchFirst (matchNumAt signed) r = none ↔ ∀ t i, IsNum signed t → ¬ OccursAt t r i) ∧
    (∀ m, reSearchFirst (matchNumAt signed) r = some m →
      IsNum signed m ∧ ∃ i, OccursAt m r i ∧ ∀ t j, IsNum signed t → OccursAt t r j → i ≤ j) := by
  have hs : ∀ s m, matchNumAt signed s = some m → (∃ t q, IsNum signed t ∧ s = t ++ q) := by
    intro s m h
    obtain ⟨hn, q, hq⟩ := matchNumAt_sound signed s m h
    exact ⟨m, q, hn, hq⟩
  have hc : ∀ s, (∃ t q, IsNum signed t ∧ s = t ++ q) → matchNumAt signed s ≠ none := by
    rintro s ⟨t, q, hn, rfl⟩
    exact matchNumAt_complete signed t q hn
  refine ⟨?_, ?_, ?_, ?_, ?_, ?_, ?_⟩
  · unfold parseCommand; rw [if_pos (by decide)]
  · unfold parseCommand; rw [if_pos (by decide)]
  · unfold parseCommand; rw [if_neg (by decide), if_neg (by decide)]
  · unfold parseCommand; rw [if_neg (by decide), if_neg (by decide)]
  · unfold parseCommand; rw [if_neg (by decide), if_neg (by decide)]
  · rw [reSearchFirst_eq_none_iff (matchNumAt signed) _ hs hc r]
    constructor
    · intro h t i hn
      rintro ⟨pre, rest, hlen, hr⟩
      exact h pre (t ++ rest) hr ⟨t, rest, hn, rfl⟩
    · rintro h pre post hpp ⟨t, q, hn, rfl⟩
      exact h t pre.length hn ⟨pre, q, rfl, hpp⟩
  · intro m h
    obtain ⟨pre, post, hsplit, hfp, hmin⟩ :=
      reSearchFirst_eq_some (matchNumAt signed) _ hs hc r m h
    obtain ⟨hn, q, hq⟩ := matchNumAt_sound signed post m hfp
    refine ⟨hn, pre.length, ⟨pre, q, rfl, by rw [hsplit, hq]⟩, ?_⟩
    rintro t j hnt ⟨pre2, rest, hlen2, hr⟩
    have hle := hmin pre2 (t ++ rest) hr ⟨t, rest, hnt, rfl⟩
    omega

/-- C3 witness: the first-match branch evaluated on a concrete rx-power
style response. -/
theorem C3_numeric_first_match_witness :
    IsNum true (str "-12.5") ∧ ∃ i, OccursAt (str "-12.5") (str "rx: -12.5 dBm") i ∧
      ∀ t j, IsNum true t → OccursAt t (str "rx: -12.5 dBm") j → i ≤ j :=
  (C3_numeric_first_match true (str "rx: -12.5 dBm")).2.2.2.2.2.2 (str "-12.5") (by decide)

/-- C4: the Prompt Scanner returns the accumulated buffer as soon as it
ends with one of the six recognized terminators (dollar, hash or
greater-than, each optionally followed by exactly one trailing space),
whatever the rest of the stream holds, and keeps waiting on a buffer
not ending in any of them. -/
theorem C4_prompt_immediate_return :
    (∀ buffer : List Char,
      isPromptEnd buffer = true ↔ ∃ t ∈ promptTerminators, ∃ pre, buffer = pre ++ t) ∧
    (∀ (stream : Nat → ReadEvent) (fuel i : Nat) (buffer text : List Char),
      stream i = ReadEvent.chunk text → text ≠ [] → isPromptEnd (buffer ++ text) = true →
      waitAux stream (fuel + 1) i buffer = Except.ok (buffer ++ text)) ∧
    (∀ (stream : Nat → ReadEvent) (fuel i : Nat) (buffer text : List Char),
      stream i = ReadEvent.chunk text → text ≠ [] → isPromptEnd (buffer ++ text) = false →
      waitAux stream (fuel + 1) i buffer = waitAux stream fuel (i + 1) (buffer ++ text)) := by
  refine ⟨?_, ?_, ?_⟩
  · intro buffer
    simp only [isPromptEnd, Bool.or_eq_true, endsWith_iff]
    constructor
    · rintro (((((h | h) | h) | h) | h) | h)
      · exact ⟨str "$ ", by decide, h⟩
      · exact ⟨str "# ", by decide, h⟩
      · exact ⟨str "> ", by decide, h⟩
      · exact ⟨str "$", by decide, h⟩
      · exact ⟨str "#", by decide, h⟩
      · exact ⟨str ">", by decide, h⟩
    · rintro ⟨t, ht, pre, rfl⟩
      have ht6 : t = str "$ " ∨ t = str "# " ∨ t = str "> " ∨
          t = str "$" ∨ t = str "#" ∨ t = str ">" := by
        simpa [promptTerminators] using ht
      rcases ht6 with rfl | rfl | rfl | rfl | rfl | rfl
      · exact Or.inl (Or.inl (Or.inl (Or.inl (Or.inl ⟨pre, rfl⟩))))
      · exact Or.inl (Or.inl (Or.inl (Or.inl (Or.inr ⟨pre, rfl⟩))))
      · exact Or.inl (Or.inl (Or.inl (Or.inr ⟨pre, rfl⟩)))
      · exact Or.inl (Or.inl (Or.inr ⟨pre, rfl⟩))
      · exact Or.inl (Or.inr ⟨pre, rfl⟩)
      · exact Or.inr ⟨pre, rfl⟩
  · intro stream fuel i buffer text hstream htext hend
    simp only [waitAux]
    rw [hstream]
    simp [htext, hend]
  · intro stream fuel i buffer text hstream htext hend
    simp only [waitAux]
    rw [hstream]
    simp [htext, hend]

/-- C4 witness: a stream whose first chunk ends in a prompt terminator
makes the scanner return at once, with a further chunk still pending. -/
theorem C4_prompt_immediate_return_witness :
    waitAux (streamOf [ReadEvent.chunk (str "abc> "), ReadEvent.chunk (str "zzz")]) 5 0 [] =
      Except.ok ([] ++ str "abc> ") :=
  C4_prompt_immediate_return.2.1
    (streamOf [ReadEvent.chunk (str "abc> "), ReadEvent.chunk (str "zzz")])
    4 0 [] (str "abc> ") rfl (by decide) (by decide)

/-- C5: on overall timeout expiry the scanner returns the partial buffer
as a normal value; a sub-timeout expiring with no bytes causes another
wait iteration; an empty chunk (closed stream) stops the wait and
returns the buffer captured so far. -/
theorem C5_prompt_timeout_eof :
    (∀ (stream : Nat → ReadEvent) (i : Nat) (buffer : List Char),
      waitAux stream 0 i buffer = Except.ok buffer) ∧
    (∀ (stream : Nat → ReadEvent) (fuel i : Nat) (buffer : List Char),
      stream i = ReadEvent.timeout →
      waitAux stream (fuel + 1) i buffer = waitAux stream fuel (i + 1) buffer) ∧
    (∀ (stream : Nat → ReadEvent) (fuel i : Nat) (buffer : List Char),
      stream i = ReadEvent.chunk [] →
      waitAux stream (fuel + 1) i buffer = Except.ok buffer) := by
  refine ⟨?_, ?_, ?_⟩
  · intro stream i buffer
    simp [waitAux]
  · intro stream fuel i buffer h
    simp only [waitAux]
    rw [h]
  · intro stream fuel i buffer h
    simp only [waitAux]
    rw [h]
    simp

/-- C5 witness: the sub-timeout branch applied to a concrete stream and
a nonempty partial buffer. -/
theorem C5_prompt_timeout_eof_witness :
    waitAux (streamOf [ReadEvent.timeout]) 3 0 (str "a") =
      waitAux (streamOf [ReadEvent.timeout]) 2 1 (str "a") :=
  C5_prompt_timeout_eof.2.1 (streamOf [ReadEvent.timeout]) 2 0 (str "a") rfl

/-- C10: an exception inside the Prompt Scanner loop escapes to the
outer handler, which returns the empty string and discards any partial
buffer, so the caller can observe an empty return even after bytes were
received. -/
theorem C10_scanner_swallows_errors :
    (∀ (stream : Nat → ReadEvent) (fuel i : Nat) (buffer : List Char),
      stream i = ReadEvent.err →
      waitAux stream (fuel + 1) i buffer = Except.error ()) ∧
    (∀ (stream : Nat → ReadEvent) (timeout : Nat),
      waitAux stream timeout 0 [] = Except.error () → wait_for_prompt stream timeout = []) := by
  refine ⟨?_, ?_⟩
  · intro stream fuel i buffer h
    simp only [waitAux]
    rw [h]
  · intro stream timeout h
    unfold wait_for_prompt
    rw [h]

/-- C10 witness: a stream that delivers three characters and then
raises makes the scanner return the empty string although bytes had
been received. -/
theorem C10_scanner_swallows_errors_witness :
    wait_for_prompt (streamOf [ReadEvent.chunk (str "abc"), ReadEvent.err]) 5 = [] :=
  C10_scanner_swallows_errors.2 (streamOf [ReadEvent.chunk (str "abc"), ReadEvent.err]) 5 rfl

/-- C6: in an authenticated session the six commands are sent in the
fixed table order and each observation is published before the next
command is sent: the send projection of the trace is exactly the table,
and the event keys (send of the i-th command at 2i, publish of its
gauge at 2i+1) are monotone along the trace. -/
theorem C6_commands_in_order (w : TelnetWorld) :
    (runCommands w).filterMap sendOf = commands.map Prod.fst ∧
    List.Pairwise (· ≤ ·) ((runCommands w).map evKey) := by
  refine ⟨sends_of_table w commands, ?_⟩
  obtain ⟨hb0, hp0⟩ :=
    runCommand_evKey_bounds w (cmdBiasCurrent, GaugeId.biasCurrent) 0 (by decide) (by decide)
  obtain ⟨hb1, hp1⟩ :=
    runCommand_evKey_bounds w (cmdRxPower, GaugeId.rxPower) 1 (by decide) (by decide)
  obtain ⟨hb2, hp2⟩ :=
    runCommand_evKey_bounds w (cmdTemperature, GaugeId.temperature) 2 (by decide) (by decide)
  obtain ⟨hb3, hp3⟩ :=
    runCommand_evKey_bounds w (cmdTxPower, GaugeId.txPower) 3 (by decide) (by decide)
  obtain ⟨hb4, hp4⟩ :=
    runCommand_evKey_bounds w (cmdVoltage, GaugeId.voltage) 4 (by decide) (by decide)
  obtain ⟨hb5, hp5⟩ :=
    runCommand_evKey_bounds w (cmdOnuState, GaugeId.onuState) 5 (by decide) (by decide)
  have e : runCommands w =
      runCommand w (cmdBiasCurrent, GaugeId.biasCurrent) ++
        (runCommand w (cmdRxPower, GaugeId.rxPower) ++
          (runCommand w (cmdTemperature, GaugeId.temperature) ++
            (runCommand w (cmdTxPower, GaugeId.txPower) ++
              (runCommand w (cmdVoltage, GaugeId.voltage) ++
                runCommand w (cmdOnuState, GaugeId.onuState))))) := by
    simp [runCommands, commands]
  rw [e]
  simp only [List.map_append]
  have A4 := pairwise_prepend_segment _ _ 4 hb4 hp4 hp5 (fun x hx => by
    have := (hb5 x hx).1
    omega)
  have A3 := pairwise_prepend_segment _ _ 3 hb3 hp3 A4.1 (fun x hx => by
    have := A4.2 x hx
    omega)
  have A2 := pairwise_prepend_segment _ _ 2 hb2 hp2 A3.1 (fun x hx => by
    have := A3.2 x hx
    omega)
  have A1 := pairwise_prepend_segment _ _ 1 hb1 hp1 A2.1 (fun x hx => by
    have := A2.2 x hx
    omega)
  have A0 := pairwise_prepend_segment _ _ 0 hb0 hp0 A1.1 (fun x hx => by
    have := A1.2 x hx
    omega)
  exact A0.1

/-- C7: when the login prompt was answered but the next scanned text
does not case-insensitively contain the password marker, the driver
closes the connection immediately: no command is sent and no
observation is published for that device in that cycle. -/
theorem C7_no_password_prompt_closes (w : TelnetWorld)
    (h1 : w.connectFails = false) (h2 : w.sendUserFails = false)
    (h3 : (containsCI w.initialResponse loginMarker ||
      containsCI w.initialResponse usernameMarker) = true)
    (h4 : containsCI w.passwordResponse passwordMarker = false) :
    fetch_and_update_metrics_via_telnet w =
      { events := [], connOpened := true, closeCalled := true, exn := w.closeFails } := by
  unfold fetch_and_update_metrics_via_telnet
  rw [if_neg (by simp [h1]), if_pos h3, if_neg (by simp [h2]), if_neg (by simp [h4])]

/-- C7 witness: the driver applied to the spec scenario world, in which
the stream yields a login prompt and then a bare shell prompt. -/
theorem C7_no_password_prompt_closes_witness :
    fetch_and_update_metrics_via_telnet wLoginNoPassword =
      { events := [], connOpened := true, closeCalled := true, exn := false } :=
  C7_no_password_prompt_closes wLoginNoPassword rfl rfl (by decide) (by decide)

/-- C8 (counterexample): the claim asserts that an opened connection is
closed on every exception path inside the driver, but when writing the
username raises, the exception reaches the trailing handlers, which
only log: the connection stays open and close is never called. -/
theorem C8_counterexample :
    (fetch_and_update_metrics_via_telnet wSendUserRaises).connOpened = true ∧
    (fetch_and_update_metrics_via_telnet wSendUserRaises).closeCalled = false := by
  constructor <;> rfl

/-- C8 (amended): the connection is closed on the success path and on
both abandon paths (no login prompt, no password prompt); on exception
paths inside the driver it is not closed by the driver. -/
theorem C8_close_on_normal_paths_amended (w : TelnetWorld)
    (h1 : w.connectFails = false) (h2 : w.sendUserFails = false)
    (h3 : w.sendPassFails = false) :
    (fetch_and_update_metrics_via_telnet w).connOpened = true ∧
    (fetch_and_update_metrics_via_telnet w).closeCalled = true := by
  unfold fetch_and_update_metrics_via_telnet
  rw [if_neg (by simp [h1])]
  by_cases hl : (containsCI w.initialResponse loginMarker ||
      containsCI w.initialResponse usernameMarker) = true
  · rw [if_pos hl, if_neg (by simp [h2])]
    by_cases hp : containsCI w.passwordResponse passwordMarker = true
    · rw [if_pos hp, if_neg (by simp [h3])]
      exact ⟨rfl, rfl⟩
    · rw [if_neg hp]
      exact ⟨rfl, rfl⟩
  · rw [if_neg hl]
    exact ⟨rfl, rfl⟩

/-- C8 witness: the amended claim applied to the no-password-prompt
world, an abandon path on which close is called. -/
theorem C8_close_on_normal_paths_amended_witness :
    (fetch_and_update_metrics_via_telnet wLoginNoPassword).connOpened = true ∧
    (fetch_and_update_metrics_via_telnet wLoginNoPassword).closeCalled = true :=
  C8_close_on_normal_paths_amended wLoginNoPassword rfl rfl rfl

/-- C9: for every device world, including every injected failure of the
error taxonomy, the synchronous per-device poll returns normally with
no escaped exception, keeping exactly the observations the driver
published before any failure; the orchestrator sweep visits every
device; and a connect failure yields zero observations. -/
theorem C9_errors_never_propagate (ws : List TelnetWorld) (w : TelnetWorld) :
    (pollAll ws).length = ws.length ∧
    (fetch_and_update_metrics_via_telnet_sync w).exn = false ∧
    (fetch_and_update_metrics_via_telnet_sync w).events =
      (fetch_and_update_metrics_via_telnet w).events ∧
    (w.connectFails = true → (fetch_and_update_metrics_via_telnet_sync w).events = []) := by
  refine ⟨by simp [pollAll], rfl, rfl, ?_⟩
  intro h
  simp [fetch_and_update_metrics_via_telnet_sync, fetch_and_update_metrics_via_telnet, h]

/-- C9 witness: a connect timeout world polled in a one-device sweep
contributes zero observations and no escaped exception. -/
theorem C9_errors_never_propagate_witness :
    (fetch_and_update_metrics_via_telnet_sync wConnectTimeout).events = [] :=
  (C9_errors_never_propagate [wConnectTimeout] wConnectTimeout).2.2.2 rfl

end GponCollector
